import Mathlib

/-!
Shallow embedding of `retriever_asm.py`, a small assembly-language virtual
machine.  A program is a list of instruction lines (strings), memory (`ram`)
is a list of integers, and the execution engine is an explicit step function
over a machine state, iterated with fuel.  Python exceptions (IndexError on
list access, ValueError from `int(...)` or tuple unpacking) are modelled as
`none` / a `fault` outcome; `print` output is collected in an output trace.
Python string operations are modelled structurally over the string's
character list so that everything evaluates by kernel reduction.
-/

namespace RetrieverAsm

/-- Python list index semantics: an index `i` with `0 ≤ i < n` denotes
position `i`; a negative `i` with `-n ≤ i` denotes position `n + i`
(counting from the end); anything else raises IndexError (`none`). -/
def pyIdx (n : Nat) (i : Int) : Option Nat :=
  if 0 ≤ i && i < (n : Int) then some i.toNat
  else if -(n : Int) ≤ i && i < 0 then some (i + (n : Int)).toNat
  else none

/-- Python `lst[i]` for the integer memory list. -/
def pyGet (ram : List Int) (i : Int) : Option Int :=
  (pyIdx ram.length i).bind fun j => ram.get? j

/-- Python `lst[i] = v` for the integer memory list. -/
def pySet (ram : List Int) (i : Int) (v : Int) : Option (List Int) :=
  (pyIdx ram.length i).map fun j => ram.set j v

/-- Python `prog[i]` for the program (a list of strings). -/
def pyGetStr (prog : List String) (i : Int) : Option String :=
  (pyIdx prog.length i).bind fun j => prog.get? j

/-- Helper for `pySplitWs`: walk the characters, accumulating the current
token (reversed); whitespace ends a token, empty tokens are dropped. -/
def splitWsAux : List Char → List Char → List String
  | [], acc => if acc = [] then [] else [String.mk acc.reverse]
  | c :: cs, acc =>
    if c.isWhitespace then
      if acc = [] then splitWsAux cs []
      else String.mk acc.reverse :: splitWsAux cs []
    else splitWsAux cs (c :: acc)

/-- Python `s.split()`: split on runs of whitespace, dropping empty pieces. -/
def pySplitWs (s : String) : List String :=
  splitWsAux s.toList []

/-- Python `s.strip()`: remove leading and trailing whitespace. -/
def pyStrip (s : String) : String :=
  String.mk (((s.toList.dropWhile Char.isWhitespace).reverse.dropWhile
      Char.isWhitespace).reverse)

/-- Python `s.strip('[]')`: remove leading and trailing `[` / `]`. -/
def pyStripBrackets (s : String) : String :=
  String.mk (((s.toList.dropWhile fun c => c == '[' || c == ']').reverse.dropWhile
      fun c => c == '[' || c == ']').reverse)

/-- Python `c in s` for a single character. -/
def pyContainsChar (s : String) (c : Char) : Bool :=
  s.toList.contains c

/-- Python `s[0:n]` (slice of the first `n` characters). -/
def pySlice0 (s : String) (n : Nat) : String :=
  String.mk (s.toList.take n)

/-- Digits of a base-10 numeral as a natural number; `none` if the list is
empty or any character is not a digit. -/
def digitsToNat (cs : List Char) : Option Nat :=
  if cs = [] then none
  else if cs.all Char.isDigit then
    some (cs.foldl (fun n c => n * 10 + (c.toNat - 48)) 0)
  else none

/-- Python `int(s)`: optional surrounding whitespace, optional sign, base-10
digits; ValueError (`none`) otherwise. -/
def pyInt (s : String) : Option Int :=
  match (pyStrip s).toList with
  | '-' :: rest => (digitsToNat rest).map fun n => -(n : Int)
  | '+' :: rest => (digitsToNat rest).map fun n => (n : Int)
  | cs => (digitsToNat cs).map fun n => (n : Int)

/-- `parse_value(value, ram)`: a token containing both `[` and `]` is a
memory-indirect operand, `ram[int(value.strip('[]'))]`; otherwise the token
is the immediate integer literal `int(value)`. -/
def parse_value (value : String) (ram : List Int) : Option Int :=
  if pyContainsChar value '[' && pyContainsChar value ']' then
    (pyInt (pyStripBrackets value)).bind fun i => pyGet ram i
  else
    pyInt value

/-- The comparison flags, one boolean per key of the Python dictionary
`{'less': ..., 'equal': ..., 'greater': ...}`. -/
structure Flags where
  less : Bool
  equal : Bool
  greater : Bool
  deriving DecidableEq, Repr

/-- `flags = {'less': False, 'equal': False, 'greater': False}`. -/
def initFlags : Flags := { less := false, equal := false, greater := false }

/-- `cmp(instruction, ram, flags)`: unpack exactly three tokens, resolve the
two arguments, and set `less` / `equal` by three-way comparison.  The
`greater` entry of the flag dictionary is not written. -/
def cmp (instruction : String) (ram : List Int) (flags : Flags) : Option Flags :=
  match pySplitWs instruction with
  | [_, a1, a2] =>
    match parse_value a1 ram, parse_value a2 ram with
    | some arg1, some arg2 =>
      if arg1 < arg2 then some { flags with less := true, equal := false }
      else if arg1 > arg2 then some { flags with less := false, equal := false }
      else some { flags with less := false, equal := true }
    | _, _ => none
  | _ => none

/-- `jmp(instruction, ram, ic, flags)`: resolve `instruction.split()[1]` as
the target, then dispatch on prefixes of the instruction text
(`instruction[0:2]`, `instruction[0:3]`) in the source's order: `JL`, `JG`,
`JLE`, `JGE`, `JE`, `JNE`, else unconditional.  Returns the new instruction
counter value. -/
def jmp (instruction : String) (ram : List Int) (ic : Int) (flags : Flags) :
    Option Int :=
  match (pySplitWs instruction).get? 1 with
  | none => none
  | some tok =>
    match parse_value tok ram with
    | none => none
    | some location =>
      if pySlice0 instruction 2 == "JL" then
        some (if flags.less then location else ic + 1)
      else if pySlice0 instruction 2 == "JG" then
        some (if flags.greater then location else ic + 1)
      else if pySlice0 instruction 3 == "JLE" then
        some (if flags.less || flags.equal then location else ic + 1)
      else if pySlice0 instruction 3 == "JGE" then
        some (if flags.greater || flags.equal then location else ic + 1)
      else if pySlice0 instruction 2 == "JE" then
        some (if flags.equal then location else ic + 1)
      else if pySlice0 instruction 3 == "JNE" then
        some (if !flags.equal then location else ic + 1)
      else
        some location

/-- The branch condition that the dispatch chain of `jmp` evaluates for a
given instruction text: the same prefix tests, in the source's order, each
returning the flag combination its branch tests; the final (unconditional)
case is always taken. -/
def branchCond (instruction : String) (flags : Flags) : Bool :=
  if pySlice0 instruction 2 == "JL" then flags.less
  else if pySlice0 instruction 2 == "JG" then flags.greater
  else if pySlice0 instruction 3 == "JLE" then flags.less || flags.equal
  else if pySlice0 instruction 3 == "JGE" then flags.greater || flags.equal
  else if pySlice0 instruction 2 == "JE" then flags.equal
  else if pySlice0 instruction 3 == "JNE" then !flags.equal
  else true

/-- `mov(instruction, ram)`: unpack exactly three tokens; the destination is
`int(instruction.split()[1].strip('[]'))`, the source is resolved through
`parse_value`; then `ram[dest] = src`. -/
def mov (instruction : String) (ram : List Int) : Option (List Int) :=
  match pySplitWs instruction with
  | [_, destTok, srcTok] =>
    match pyInt (pyStripBrackets destTok) with
    | none => none
    | some dest =>
      match parse_value srcTok ram with
      | none => none
      | some src => pySet ram dest src
  | _ => none

/-- Common shape of `add`/`sub`/`mul`: unpack exactly four tokens, parse the
destination index, resolve both arguments, store `op arg1 arg2`. -/
def arith3 (op : Int → Int → Int) (instruction : String) (ram : List Int) :
    Option (List Int) :=
  match pySplitWs instruction with
  | [_, destTok, a1, a2] =>
    match pyInt (pyStripBrackets destTok) with
    | none => none
    | some dest =>
      match parse_value a1 ram, parse_value a2 ram with
      | some arg1, some arg2 => pySet ram dest (op arg1 arg2)
      | _, _ => none
  | _ => none

/-- `add(instruction, ram)`: `ram[dest] = arg1 + arg2`. -/
def add (instruction : String) (ram : List Int) : Option (List Int) :=
  arith3 (· + ·) instruction ram

/-- `sub(instruction, ram)`: `ram[dest] = arg1 - arg2`. -/
def sub (instruction : String) (ram : List Int) : Option (List Int) :=
  arith3 (· - ·) instruction ram

/-- `mul(instruction, ram)`: `ram[dest] = arg1 * arg2`. -/
def mul (instruction : String) (ram : List Int) : Option (List Int) :=
  arith3 (· * ·) instruction ram

/-- `div(instruction, ram)`: like `add`, but if the second argument resolves
to `0` it prints "Division by zero error" and returns with `ram` untouched;
otherwise stores the floor quotient `arg1 // arg2`.  The second component is
the printed output. -/
def div (instruction : String) (ram : List Int) :
    Option (List Int × List String) :=
  match pySplitWs instruction with
  | [_, destTok, a1, a2] =>
    match pyInt (pyStripBrackets destTok) with
    | none => none
    | some dest =>
      match parse_value a1 ram, parse_value a2 ram with
      | some arg1, some arg2 =>
        if arg2 = 0 then some (ram, ["Division by zero error"])
        else (pySet ram dest (Int.fdiv arg1 arg2)).map fun r => (r, [])
      | _, _ => none
  | _ => none

/-- `mod(instruction, ram)`: like `div`, storing the floor remainder
`arg1 % arg2` (Python `%`, whose sign follows the divisor). -/
def mod (instruction : String) (ram : List Int) :
    Option (List Int × List String) :=
  match pySplitWs instruction with
  | [_, destTok, a1, a2] =>
    match pyInt (pyStripBrackets destTok) with
    | none => none
    | some dest =>
      match parse_value a1 ram, parse_value a2 ram with
      | some arg1, some arg2 =>
        if arg2 = 0 then some (ram, ["Division by zero error"])
        else (pySet ram dest (Int.fmod arg1 arg2)).map fun r => (r, [])
      | _, _ => none
  | _ => none

/-- Python `lower(s)` over the character list. -/
def pyLower (s : String) : String :=
  String.mk (s.toList.map Char.toLower)

/-- Helper for `pyContainsSub`: does `pat` occur as a contiguous block of the
second list? -/
def containsSubAux (pat : List Char) : List Char → Bool
  | [] => pat = []
  | c :: cs => pat.isPrefixOf (c :: cs) || containsSubAux pat cs

/-- Python `pat in s` (substring containment) over character lists. -/
def pyContainsSub (s pat : String) : Bool :=
  containsSubAux pat.toList s.toList

/-- `interrupt(instruction, ram)`: if the lowered instruction contains
"print", print either the memory cell named by a bracketed third token or the
remaining tokens joined by spaces; otherwise read one line from the input
channel, parse it as an integer, and store it at the bracketed destination in
the third token.  Returns the new memory, the remaining input and the printed
output. -/
def interrupt (instruction : String) (ram : List Int) (input : List String) :
    Option (List Int × List String × List String) :=
  let split_instruction := pySplitWs instruction
  if pyContainsSub (pyLower instruction) "print" then
    match split_instruction.get? 2 with
    | none => none
    | some t =>
      if pyContainsChar t '[' then
        match pyInt (pyStripBrackets t) with
        | none => none
        | some i =>
          match pyGet ram i with
          | none => none
          | some v => some (ram, input, [toString v])
      else
        some (ram, input, [" ".intercalate (split_instruction.drop 2)])
  else
    match input with
    | [] => none
    | line :: rest =>
      match pyInt line with
      | none => none
      | some v =>
        match split_instruction.get? 2 with
        | none => none
        | some destTok =>
          match pyInt (pyStripBrackets destTok) with
          | none => none
          | some dest =>
            (pySet ram dest v).map fun r => (r, rest, [])

/-- `hlt(ic)`: set the instruction counter to the sentinel `-2`. -/
def hlt (_ic : Int) : Int := -2

/-- The machine state threaded through the fetch-execute loop of
`run_program`: memory, the instruction counter cell, the flag dictionary,
plus the external input channel and the collected printed output. -/
structure VMState where
  ram : List Int
  ic : Int
  flags : Flags
  input : List String
  output : List String
  deriving DecidableEq, Repr

/-- Outcome of one iteration of the loop body of `run_program`. -/
inductive StepOut where
  | running (s : VMState)
  | halted (s : VMState)
  | fault
  deriving DecidableEq, Repr

/-- One iteration of the `while` body of `run_program`: fetch
`program[ic]`, strip it, dispatch on the first token (`MOV`, `ADD`, `SUB`,
`MUL`, `DIV`, `MOD`, any token containing `J`, `CMP`, `HLT`, `INT`, else an
"Invalid instruction" report), then advance `ic` by one unless the
instruction was dispatched to `jmp` (which already set `ic`) or was `HLT`
(which sets the sentinel and returns from `run_program`). -/
def stepBody (program : List String) (s : VMState) : StepOut :=
  match pyGetStr program s.ic with
  | none => .fault
  | some line =>
    let instruction := pyStrip line
    if instruction = "" then .running { s with ic := s.ic + 1 }
    else
      match (pySplitWs instruction).head? with
      | none => .fault
      | some op =>
        if op = "MOV" then
          match mov instruction s.ram with
          | some ram' => .running { s with ram := ram', ic := s.ic + 1 }
          | none => .fault
        else if op = "ADD" then
          match add instruction s.ram with
          | some ram' => .running { s with ram := ram', ic := s.ic + 1 }
          | none => .fault
        else if op = "SUB" then
          match sub instruction s.ram with
          | some ram' => .running { s with ram := ram', ic := s.ic + 1 }
          | none => .fault
        else if op = "MUL" then
          match mul instruction s.ram with
          | some ram' => .running { s with ram := ram', ic := s.ic + 1 }
          | none => .fault
        else if op = "DIV" then
          match div instruction s.ram with
          | some (ram', out) =>
            .running { s with ram := ram', ic := s.ic + 1, output := s.output ++ out }
          | none => .fault
        else if op = "MOD" then
          match mod instruction s.ram with
          | some (ram', out) =>
            .running { s with ram := ram', ic := s.ic + 1, output := s.output ++ out }
          | none => .fault
        else if pyContainsChar op 'J' then
          match jmp instruction s.ram s.ic s.flags with
          | some ic' => .running { s with ic := ic' }
          | none => .fault
        else if op = "CMP" then
          match cmp instruction s.ram s.flags with
          | some flags' => .running { s with flags := flags', ic := s.ic + 1 }
          | none => .fault
        else if op = "HLT" then
          .halted { s with ic := hlt s.ic }
        else if op = "INT" then
          match interrupt instruction s.ram s.input with
          | some (ram', input', out) =>
            .running { s with ram := ram', input := input', ic := s.ic + 1,
                              output := s.output ++ out }
          | none => .fault
        else
          .running { s with ic := s.ic + 1,
                            output := s.output ++ ["Invalid instruction: " ++ instruction] }

/-- Result of `run_program`: the loop exits normally when `ic` reaches the
program length (`completed`), `HLT` returns from inside the loop (`halted`),
an uncaught Python exception aborts the run (`faulted`), and `outOfFuel`
marks an execution longer than the supplied fuel. -/
inductive RunOut where
  | completed (s : VMState)
  | halted (s : VMState)
  | faulted
  | outOfFuel (s : VMState)
  deriving DecidableEq, Repr

/-- The `while ic[0] < len(program)` loop of `run_program`, iterated with
explicit fuel. -/
def runLoop (program : List String) : Nat → VMState → RunOut
  | 0, s => .outOfFuel s
  | fuel + 1, s =>
    if s.ic < (program.length : Int) then
      match stepBody program s with
      | .running s' => runLoop program fuel s'
      | .halted s' => .halted s'
      | .fault => .faulted
    else
      .completed s

/-- The initial state of `run_program`: `ic = [0]`, all flags `False`. -/
def initState (ram : List Int) (input : List String) : VMState :=
  { ram := ram, ic := 0, flags := initFlags, input := input, output := [] }

/-- `run_program(program, ram)` with an input channel and fuel. -/
def run_program (program : List String) (ram : List Int) (input : List String)
    (fuel : Nat) : RunOut :=
  runLoop program fuel (initState ram input)

/-- `create_ram(size)`: a list of `size` zeros. -/
def create_ram (size : Nat) : List Int :=
  List.replicate size 0

end RetrieverAsm

namespace RetrieverAsm

example : parse_value "[1]" [7, 8, 9] = some 8 := by decide
example : parse_value "-5" [] = some (-5) := by decide
example : parse_value "[3]" [7, 8, 9] = none := by decide

/-- Splitting a whitespace-free nonempty character list yields the single
token made of the accumulator (reversed) followed by the list. -/
theorem splitWsAux_all_nonws (cs : List Char) (acc : List Char)
    (hcs : ∀ c ∈ cs, c.isWhitespace = false)
    (hne : acc.reverse ++ cs ≠ []) :
    splitWsAux cs acc = [String.mk (acc.reverse ++ cs)] := by
  induction cs generalizing acc with
  | nil =>
    have hacc : acc ≠ [] := by
      intro h
      exact hne (by simp [h])
    simp [splitWsAux, hacc]
  | cons c cs ih =>
    have hc : c.isWhitespace = false := hcs c (by simp)
    have hrest : ∀ x ∈ cs, x.isWhitespace = false := fun x hx =>
      hcs x (by simp [hx])
    have step : splitWsAux (c :: cs) acc = splitWsAux cs (c :: acc) := by
      simp [splitWsAux, hc]
    rw [step, ih (c :: acc) hrest (by simp)]
    simp

/-- Splitting a whitespace-free nonempty block followed by a space emits
that block as one token and continues on the remainder with an empty
accumulator. -/
theorem splitWsAux_block_space (xs : List Char) (rest : List Char)
    (acc : List Char) (hxs : ∀ c ∈ xs, c.isWhitespace = false)
    (hne : acc.reverse ++ xs ≠ []) :
    splitWsAux (xs ++ ' ' :: rest) acc =
      String.mk (acc.reverse ++ xs) :: splitWsAux rest [] := by
  induction xs generalizing acc with
  | nil =>
    have hacc : acc ≠ [] := by
      intro h
      exact hne (by simp [h])
    simp [splitWsAux, hacc]
  | cons c cs ih =>
    have hc : c.isWhitespace = false := hxs c (by simp)
    have hrest : ∀ x ∈ cs, x.isWhitespace = false := fun x hx =>
      hxs x (by simp [hx])
    have step : splitWsAux ((c :: cs) ++ ' ' :: rest) acc =
        splitWsAux (cs ++ ' ' :: rest) (c :: acc) := by
      simp [splitWsAux, hc]
    rw [step, ih (c :: acc) hrest (by simp)]
    simp

/-- The character list of an appended string. -/
theorem toList_append (s t : String) : (s ++ t).toList = s.toList ++ t.toList := by
  cases s
  cases t
  rfl

/-- Python `split()` of `opc ++ " " ++ tgt` where the opcode and the target
are nonempty whitespace-free tokens. -/
theorem pySplitWs_opcode_tgt (opc tgt : String)
    (hop : ∀ c ∈ opc.toList, c.isWhitespace = false)
    (hopne : opc.toList ≠ [])
    (htgt : ∀ c ∈ tgt.toList, c.isWhitespace = false)
    (htne : tgt.toList ≠ []) :
    pySplitWs (opc ++ " " ++ tgt) = [opc, tgt] := by
  unfold pySplitWs
  have hdata : (opc ++ " " ++ tgt).toList = opc.toList ++ ' ' :: tgt.toList := by
    rw [toList_append, toList_append]
    simp
  rw [hdata,
    splitWsAux_block_space opc.toList tgt.toList [] hop (by simpa using hopne),
    splitWsAux_all_nonws tgt.toList [] htgt (by simpa using htne)]
  cases opc
  cases tgt
  rfl

/-- Slicing an appended string from the start stays within the first part
when the requested length fits. -/
theorem pySlice0_append (s t : String) (n : Nat) (hn : n ≤ s.toList.length) :
    pySlice0 (s ++ t) n = pySlice0 s n := by
  unfold pySlice0
  rw [toList_append, List.take_append_of_le_length hn]

/-- `jmp` returns the resolved target when the instruction's branch
condition (`branchCond`) holds in the current flags and `ic + 1` when it
fails. -/
theorem jmp_eq_branchCond (instr tgt : String) (ram : List Int)
    (ic loc : Int) (f : Flags)
    (htgt : (pySplitWs instr).get? 1 = some tgt)
    (hloc : parse_value tgt ram = some loc) :
    jmp instr ram ic f = some (if branchCond instr f then loc else ic + 1) := by
  unfold jmp branchCond
  simp only [htgt, hloc]
  split_ifs <;> simp_all

/-- C1: refuted on the code.  `cmp` writes only the `less` and `equal`
entries of the flag dictionary and never the `greater` entry (first
conjunct); consequently, executing `CMP 1 0` — a comparison with
`arg1 > arg2` — from the run's initial flag state leaves all three flags
false, so the `greater` flag is not true and it is not the case that exactly
one of the three flags is true. -/
theorem cmp_greater_flag_never_written :
    (∀ f : Flags, cmp "CMP 1 0" [] f =
      some { less := false, equal := false, greater := f.greater }) ∧
    cmp "CMP 1 0" [] initFlags =
      some { less := false, equal := false, greater := false } := by
  refine ⟨fun f => ?_, by decide⟩
  cases f
  rfl

/-- C2: refuted on the code.  The dispatch in `jmp` tests the two-character
prefix `JL` before the three-character mnemonic `JLE` (and `JG` before
`JGE`), so a `JLE` (resp. `JGE`) instruction is handled by the `JL` (resp.
`JG`) branch: with the `equal` flag true and `less` false, `JLE 5` at
`ic = 0` falls through to `ic = 1` instead of branching to `5`, and likewise
`JGE 5`; moreover `JLE` behaves identically to `JL` in every flag state and
at every instruction counter. -/
theorem jle_jge_dispatched_as_jl_jg :
    jmp "JLE 5" [] 0 { less := false, equal := true, greater := false } =
      some 1 ∧
    jmp "JGE 5" [] 0 { less := false, equal := true, greater := false } =
      some 1 ∧
    (∀ (f : Flags) (ic : Int), jmp "JLE 5" [] ic f = jmp "JL 5" [] ic f) ∧
    (∀ (f : Flags) (ic : Int), jmp "JGE 5" [] ic f = jmp "JG 5" [] ic f) := by
  refine ⟨by decide, by decide, fun f ic => rfl, fun f ic => rfl⟩

/-- C3: refuted on the code.  Running the program `CMP 1 0; JG 0` (a
comparison with `1 > 0` followed by a `JG`) does not take the branch: since
`cmp` never sets the `greater` flag, `jmp` advances the instruction counter
to `2` and the run completes by falling off the end, instead of jumping back
to address `0`. -/
theorem jg_after_gt_cmp_not_taken :
    run_program ["CMP 1 0", "JG 0"] [0] [] 10 =
      .completed { ram := [0], ic := 2, flags := initFlags, input := [],
                   output := [] } ∧
    jmp "JG 0" [0] 1 { less := false, equal := false, greater := false } =
      some 2 := by
  exact ⟨by decide, by decide⟩

/-- C4: refuted on the code.  The loop guard of `run_program` checks only
`ic < len(program)`, so after `JMP -1` the machine is still running with
`ic = -1`, the guard still holds, and the next iteration fetches the
instruction at index `-1` (which Python list indexing resolves to the last
program line) instead of refusing a negative fetch: the step from the state
with `ic = -1` executes normally rather than faulting. -/
theorem fetch_proceeds_at_negative_ic :
    stepBody ["JMP -1"] (initState [] []) =
      .running { ram := [], ic := -1, flags := initFlags, input := [],
                 output := [] } ∧
    ((-1 : Int) < ((["JMP -1"] : List String).length : Int)) ∧
    stepBody ["JMP -1"]
        { ram := [], ic := -1, flags := initFlags, input := [], output := [] } =
      .running { ram := [], ic := -1, flags := initFlags, input := [],
                 output := [] } := by
  exact ⟨by decide, by decide, by decide⟩

/-- C5: refuted on the code.  `parse_value` resolves a bracketed operand by
plain Python list indexing, so the negative index `-1` does not fail: over a
memory of size `3` the token `[-1]` yields the value of the last cell,
`Memory[2] = 9` — an out-of-range (negative) index yields a value from
Memory instead of an `OutOfBoundsAddress` failure.  (An index `≥` the memory
size does fail, second conjunct.) -/
theorem parse_value_negative_index_yields_value :
    parse_value "[-1]" [7, 8, 9] = some 9 ∧
    parse_value "[3]" [7, 8, 9] = none := by
  exact ⟨by decide, by decide⟩

/-- C9: confirmed.  `hlt` sets the instruction counter to `-2`, which is
distinct from every valid program index (second conjunct, for any program
index of any program); running a program consisting solely of `HLT` over a
zero-initialized memory of any size terminates immediately as `halted`, with
memory still all zeros, no output, and no further instruction executed. -/
theorem hlt_sentinel_terminates (n fuel : Nat) (hf : 0 < fuel) :
    run_program ["HLT"] (create_ram n) [] fuel =
      .halted { ram := create_ram n, ic := -2, flags := initFlags,
                input := [], output := [] } ∧
    ∀ (ic : Int) (i : Nat), hlt ic ≠ (i : Int) := by
  constructor
  · match fuel, hf with
    | fuel' + 1, _ => rfl
  · intro ic i
    simp only [hlt]
    omega

/-- C9 witness: the theorem applied to a memory of size 3 and fuel 5. -/
theorem hlt_sentinel_terminates_witness :
    run_program ["HLT"] (create_ram 3) [] 5 =
      .halted { ram := create_ram 3, ic := -2, flags := initFlags,
                input := [], output := [] } :=
  (hlt_sentinel_terminates 3 5 (by decide)).1

/-- C6: confirmed.  If the fetched instruction is a `DIV` or `MOD` whose
destination token parses, whose first source operand resolves, and whose
second source operand resolves to `0`, then the loop body leaves memory
(hence `Memory[dest]`), the flags and the input channel unmodified, reports
`"Division by zero error"` on the output channel, and continues in the
running state with the instruction counter advanced by exactly 1. -/
theorem div_mod_by_zero_recovers (program : List String) (s : VMState)
    (line instr op d a1 a2 : String) (dv v1 : Int)
    (hfetch : pyGetStr program s.ic = some line)
    (hstrip : pyStrip line = instr)
    (hsplit : pySplitWs instr = [op, d, a1, a2])
    (hop : op = "DIV" ∨ op = "MOD")
    (hd : pyInt (pyStripBrackets d) = some dv)
    (h1 : parse_value a1 s.ram = some v1)
    (h2 : parse_value a2 s.ram = some 0) :
    stepBody program s =
      .running { s with ic := s.ic + 1,
                        output := s.output ++ ["Division by zero error"] } := by
  have hne : instr ≠ "" := by
    intro h
    have h0 : pySplitWs "" = [] := rfl
    rw [h, h0] at hsplit
    exact List.noConfusion hsplit
  rcases hop with hop | hop <;> subst hop <;>
    simp [stepBody, hfetch, hstrip, hsplit, hne, div, mod, hd, h1, h2]

/-- C6 witness: the theorem applied to `DIV [0] 5 0` and to `MOD [0] 5 0`
over the one-cell memory `[7]`. -/
theorem div_mod_by_zero_recovers_witness :
    stepBody ["DIV [0] 5 0"] (initState [7] []) =
      .running { ram := [7], ic := 1, flags := initFlags, input := [],
                 output := ["Division by zero error"] } ∧
    stepBody ["MOD [0] 5 0"] (initState [7] []) =
      .running { ram := [7], ic := 1, flags := initFlags, input := [],
                 output := ["Division by zero error"] } :=
  ⟨div_mod_by_zero_recovers ["DIV [0] 5 0"] (initState [7] [])
      "DIV [0] 5 0" "DIV [0] 5 0" "DIV" "[0]" "5" "0" 0 5
      rfl rfl rfl (Or.inl rfl) rfl rfl rfl,
   div_mod_by_zero_recovers ["MOD [0] 5 0"] (initState [7] [])
      "MOD [0] 5 0" "MOD [0] 5 0" "MOD" "[0]" "5" "0" 0 5
      rfl rfl rfl (Or.inr rfl) rfl rfl rfl⟩

/-- C7: confirmed.  Whenever the loop body dispatches the fetched
instruction to `jmp` (its first token is none of the arithmetic/move opcodes
and contains the letter `J`) and the target operand resolves to `loc`, the
resulting state is exactly: instruction counter equal to `loc` if the
instruction's branch condition holds in the current flags, and to `ic + 1`
if it fails — with memory, flags, input and output unchanged, and no further
increment applied by the loop after the handler returns. -/
theorem branch_sets_ic_exactly (program : List String) (s : VMState)
    (line instr op tgt : String) (loc : Int)
    (hfetch : pyGetStr program s.ic = some line)
    (hstrip : pyStrip line = instr)
    (hhead : (pySplitWs instr).head? = some op)
    (hmov : op ≠ "MOV") (hadd : op ≠ "ADD") (hsub : op ≠ "SUB")
    (hmul : op ≠ "MUL") (hdiv : op ≠ "DIV") (hmod : op ≠ "MOD")
    (hj : pyContainsChar op 'J' = true)
    (htgt : (pySplitWs instr).get? 1 = some tgt)
    (hloc : parse_value tgt s.ram = some loc) :
    stepBody program s =
      .running { s with
        ic := if branchCond instr s.flags then loc else s.ic + 1 } := by
  have hne : instr ≠ "" := by
    intro h
    have h0 : pySplitWs "" = [] := rfl
    rw [h, h0] at hhead
    exact Option.noConfusion hhead
  have hjmp : jmp instr s.ram s.ic s.flags =
      some (if branchCond instr s.flags then loc else s.ic + 1) :=
    jmp_eq_branchCond instr tgt s.ram s.ic loc s.flags htgt hloc
  simp [stepBody, hfetch, hstrip, hne, hhead, hmov, hadd, hsub, hmul, hdiv,
    hmod, hj, hjmp]

/-- C7 witness: the theorem applied to `JMP 3` (condition holds: the
counter becomes the target `3`) and to `JE 3` in the all-false initial flag
state (condition fails: the counter advances from `0` to exactly `1`). -/
theorem branch_sets_ic_exactly_witness :
    stepBody ["JMP 3"] (initState [] []) =
      .running { ram := [], ic := 3, flags := initFlags, input := [],
                 output := [] } ∧
    stepBody ["JE 3"] (initState [] []) =
      .running { ram := [], ic := 1, flags := initFlags, input := [],
                 output := [] } :=
  ⟨branch_sets_ic_exactly ["JMP 3"] (initState [] [])
      "JMP 3" "JMP 3" "JMP" "3" 3 rfl rfl rfl
      (by decide) (by decide) (by decide) (by decide) (by decide) (by decide)
      (by decide) rfl rfl,
   branch_sets_ic_exactly ["JE 3"] (initState [] [])
      "JE 3" "JE 3" "JE" "3" 3 rfl rfl rfl
      (by decide) (by decide) (by decide) (by decide) (by decide) (by decide)
      (by decide) rfl rfl⟩

/-- C8: confirmed.  If the fetched instruction is a `MOV` whose destination
token parses to an in-range index `dest` and whose source operand resolves to
`v`, then after the loop body the memory is `s.ram.set dest v` — cell `dest`
holds exactly the resolved source value and every other cell is unchanged —
while the flags and the input/output channels are unchanged and the
instruction counter advances by the normal `+ 1`. -/
theorem mov_writes_dest_only (program : List String) (s : VMState)
    (line instr d srcTok : String) (dest : Nat) (v : Int)
    (hfetch : pyGetStr program s.ic = some line)
    (hstrip : pyStrip line = instr)
    (hsplit : pySplitWs instr = ["MOV", d, srcTok])
    (hd : pyInt (pyStripBrackets d) = some (dest : Int))
    (hdest : dest < s.ram.length)
    (hsrc : parse_value srcTok s.ram = some v) :
    stepBody program s =
      .running { s with ram := s.ram.set dest v, ic := s.ic + 1 } ∧
    (s.ram.set dest v).get? dest = some v ∧
    ∀ j : Nat, j ≠ dest → (s.ram.set dest v).get? j = s.ram.get? j := by
  have hne : instr ≠ "" := by
    intro h
    have h0 : pySplitWs "" = [] := rfl
    rw [h, h0] at hsplit
    exact List.noConfusion hsplit
  have hset : pySet s.ram (dest : Int) v = some (s.ram.set dest v) := by
    simp [pySet, pyIdx, hdest]
  refine ⟨?_, ?_, ?_⟩
  · simp [stepBody, hfetch, hstrip, hsplit, hne, mov, hd, hsrc, hset]
  · exact List.get?_set_eq_of_lt v hdest
  · intro j hj
    exact List.get?_set_ne v s.ram fun h => hj h.symm

/-- C8 witness: the theorem applied to `MOV [1] 5` over the memory
`[7, 8, 9]`: cell 1 becomes 5, cells 0 and 2 keep their values. -/
theorem mov_writes_dest_only_witness :
    stepBody ["MOV [1] 5"] (initState [7, 8, 9] []) =
      .running { ram := [7, 5, 9], ic := 1, flags := initFlags, input := [],
                 output := [] } :=
  (mov_writes_dest_only ["MOV [1] 5"] (initState [7, 8, 9] [])
      "MOV [1] 5" "MOV [1] 5" "[1]" "5" 1 5
      rfl rfl rfl rfl (by decide) rfl).1

/-- C10: confirmed.  The run starts with all three flags false
(`initFlags`), and in that flag state, for every whitespace-free nonempty
target token resolving to `loc`, a `JNE` instruction branches (the counter
becomes `loc`) while `JE`, `JL`, `JG`, `JLE` and `JGE` all fall through (the
counter advances to `ic + 1`). -/
theorem branches_before_first_cmp (tgt : String) (ram : List Int)
    (ic loc : Int)
    (htgt : ∀ c ∈ tgt.toList, c.isWhitespace = false)
    (htne : tgt.toList ≠ [])
    (hloc : parse_value tgt ram = some loc) :
    initFlags = { less := false, equal := false, greater := false } ∧
    jmp ("JNE" ++ " " ++ tgt) ram ic initFlags = some loc ∧
    jmp ("JE" ++ " " ++ tgt) ram ic initFlags = some (ic + 1) ∧
    jmp ("JL" ++ " " ++ tgt) ram ic initFlags = some (ic + 1) ∧
    jmp ("JG" ++ " " ++ tgt) ram ic initFlags = some (ic + 1) ∧
    jmp ("JLE" ++ " " ++ tgt) ram ic initFlags = some (ic + 1) ∧
    jmp ("JGE" ++ " " ++ tgt) ram ic initFlags = some (ic + 1) := by
  have hjne : pySplitWs ("JNE" ++ " " ++ tgt) = ["JNE", tgt] :=
    pySplitWs_opcode_tgt "JNE" tgt (by decide) (by decide) htgt htne
  have hje : pySplitWs ("JE" ++ " " ++ tgt) = ["JE", tgt] :=
    pySplitWs_opcode_tgt "JE" tgt (by decide) (by decide) htgt htne
  have hjl : pySplitWs ("JL" ++ " " ++ tgt) = ["JL", tgt] :=
    pySplitWs_opcode_tgt "JL" tgt (by decide) (by decide) htgt htne
  have hjg : pySplitWs ("JG" ++ " " ++ tgt) = ["JG", tgt] :=
    pySplitWs_opcode_tgt "JG" tgt (by decide) (by decide) htgt htne
  have hjle : pySplitWs ("JLE" ++ " " ++ tgt) = ["JLE", tgt] :=
    pySplitWs_opcode_tgt "JLE" tgt (by decide) (by decide) htgt htne
  have hjge : pySplitWs ("JGE" ++ " " ++ tgt) = ["JGE", tgt] :=
    pySplitWs_opcode_tgt "JGE" tgt (by decide) (by decide) htgt htne
  have bjne : branchCond ("JNE" ++ " " ++ tgt) initFlags = true := by
    unfold branchCond
    rw [pySlice0_append ("JNE" ++ " ") tgt 2 (by decide),
      pySlice0_append ("JNE" ++ " ") tgt 3 (by decide)]
    decide
  have bje : branchCond ("JE" ++ " " ++ tgt) initFlags = false := by
    unfold branchCond
    rw [pySlice0_append ("JE" ++ " ") tgt 2 (by decide),
      pySlice0_append ("JE" ++ " ") tgt 3 (by decide)]
    decide
  have bjl : branchCond ("JL" ++ " " ++ tgt) initFlags = false := by
    unfold branchCond
    rw [pySlice0_append ("JL" ++ " ") tgt 2 (by decide),
      pySlice0_append ("JL" ++ " ") tgt 3 (by decide)]
    decide
  have bjg : branchCond ("JG" ++ " " ++ tgt) initFlags = false := by
    unfold branchCond
    rw [pySlice0_append ("JG" ++ " ") tgt 2 (by decide),
      pySlice0_append ("JG" ++ " ") tgt 3 (by decide)]
    decide
  have bjle : branchCond ("JLE" ++ " " ++ tgt) initFlags = false := by
    unfold branchCond
    rw [pySlice0_append ("JLE" ++ " ") tgt 2 (by decide),
      pySlice0_append ("JLE" ++ " ") tgt 3 (by decide)]
    decide
  have bjge : branchCond ("JGE" ++ " " ++ tgt) initFlags = false := by
    unfold branchCond
    rw [pySlice0_append ("JGE" ++ " ") tgt 2 (by decide),
      pySlice0_append ("JGE" ++ " ") tgt 3 (by decide)]
    decide
  refine ⟨rfl, ?_, ?_, ?_, ?_, ?_, ?_⟩
  · rw [jmp_eq_branchCond _ tgt ram ic loc _ (by rw [hjne]; rfl) hloc, bjne]
    simp
  · rw [jmp_eq_branchCond _ tgt ram ic loc _ (by rw [hje]; rfl) hloc, bje]
    simp
  · rw [jmp_eq_branchCond _ tgt ram ic loc _ (by rw [hjl]; rfl) hloc, bjl]
    simp
  · rw [jmp_eq_branchCond _ tgt ram ic loc _ (by rw [hjg]; rfl) hloc, bjg]
    simp
  · rw [jmp_eq_branchCond _ tgt ram ic loc _ (by rw [hjle]; rfl) hloc, bjle]
    simp
  · rw [jmp_eq_branchCond _ tgt ram ic loc _ (by rw [hjge]; rfl) hloc, bjge]
    simp

/-- C10 witness: the theorem applied to the target token `7` over an empty
memory at `ic = 0`: `JNE 7` branches to `7`, the five other conditional
jumps fall through to `1`. -/
theorem branches_before_first_cmp_witness :
    initFlags = { less := false, equal := false, greater := false } ∧
    jmp ("JNE" ++ " " ++ "7") [] 0 initFlags = some 7 ∧
    jmp ("JE" ++ " " ++ "7") [] 0 initFlags = some (0 + 1) ∧
    jmp ("JL" ++ " " ++ "7") [] 0 initFlags = some (0 + 1) ∧
    jmp ("JG" ++ " " ++ "7") [] 0 initFlags = some (0 + 1) ∧
    jmp ("JLE" ++ " " ++ "7") [] 0 initFlags = some (0 + 1) ∧
    jmp ("JGE" ++ " " ++ "7") [] 0 initFlags = some (0 + 1) :=
  branches_before_first_cmp "7" [] 0 7 (by decide) (by decide) rfl

end RetrieverAsm
